import Mathlib

/-!
Verification development for the numerical kernels of `msaexp/resample_numba.py`:
a shallow embedding over the reals of the four functions

* `resample_template_numba` — resample a template on an observation grid with a
  wavelength-dependent Gaussian kernel (two-pointer windowing plus trapezoidal
  quadrature);
* `sample_gaussian_line_numba` — pixel-integrated Gaussian emission line;
* `pixel_integrated_gaussian_numba` — exact pixel-integrated Gaussian via erf;
* `compute_igm` — Inoue (2014) IGM transmission.

Arrays are embedded as total functions `ℕ → ℝ` together with explicit lengths;
the floating-point arithmetic of the source is modelled by exact real
arithmetic.  Python `x ** p` with a fractional literal exponent becomes
`Real.rpow`, and with an integer literal exponent becomes the monoid power,
matching the real semantics of the float power in both cases.
-/

noncomputable section

/-- Error function used by `math.erf` in the source, as the Gaussian integral. -/
def erf (x : ℝ) : ℝ := 2 / Real.sqrt Real.pi * ∫ t in (0:ℝ)..x, Real.exp (-(t ^ 2))

/-- Pixel widths of `pixel_integrated_gaussian_numba` (source lines 193-201).
When `dx` is given, the source broadcasts it with `dx * np.ones_like(x)`.
When `dx` is omitted the source starts from `np.ones_like(x)`, overwrites the
interior `xdx[1:-1] = (x[2:] - x[:-2]) / 2`, then overwrites `xdx[0]` and
`xdx[-1]`; the value below is the final state of those three assignments. -/
def xdxOf (x : ℕ → ℝ) (N : ℕ) : Option (ℕ → ℝ) → ℕ → ℝ
  | some d => fun i => d i * 1
  | none =>
    Function.update
      (Function.update
        (fun i => if 1 ≤ i ∧ i + 1 < N then (x (i + 1) - x (i - 1)) / 2 else 1)
        0 (x 1 - x 0))
      (N - 1) (x (N - 1) - x (N - 2))

/-- Embedding of `pixel_integrated_gaussian_numba` (source lines 158-216).
`sigma` is embedded as a per-sample function, covering both the scalar case
(broadcast by `sigma * np.ones_like(x)` in the source) and the array case;
likewise `mu * np.ones_like(x)` for the scalar center.  The source computes
index `0` before the loop and indices `1..N-1` inside it with the identical
formula, so the per-index value is uniform. -/
def pixel_integrated_gaussian_numba (x : ℕ → ℝ) (mu : ℝ) (sigma : ℕ → ℝ)
    (dx : Option (ℕ → ℝ)) (normalization : ℝ) (N : ℕ) : ℕ → ℝ :=
  let s2dw : ℕ → ℝ := fun i => Real.sqrt 2 * sigma i * 1
  let mux : ℕ → ℝ := fun _ => mu * 1
  let xdx : ℕ → ℝ := xdxOf x N dx
  fun i =>
    let x0 := x i - mux i
    let left := erf ((x0 - xdx i / 2) / s2dw i)
    let right := erf ((x0 + xdx i / 2) / s2dw i)
    (right - left) / 2 / xdx i * normalization

/-- Segment search for `np.interp`: the index of the interval containing `v`. -/
def interpSeg (xp : ℕ → ℝ) (v : ℝ) (N j : ℕ) : ℕ :=
  if h : j + 2 < N ∧ xp (j + 1) ≤ v then interpSeg xp v N (j + 1) else j
termination_by N - j
decreasing_by omega

/-- Model of `np.interp(v, xp, fp)`: linear interpolation clamped to the edge
values outside the grid. -/
def np_interp (v : ℝ) (xp fp : ℕ → ℝ) (N : ℕ) : ℝ :=
  if v ≤ xp 0 then fp 0
  else if xp (N - 1) ≤ v then fp (N - 1)
  else
    let j := interpSeg xp v N 0
    fp j + (fp (j + 1) - fp j) * ((v - xp j) / (xp (j + 1) - xp j))

/-- Effective Gaussian width of `sample_gaussian_line_numba` (source lines
145-149): resolution interpolated at the line center, combined in quadrature
with the kinematic term. -/
def lineDw (spec_wobs spec_R_fwhm : ℕ → ℝ) (line_um velocity_sigma : ℝ) (N : ℕ) : ℝ :=
  Real.sqrt ((velocity_sigma / 3.0e5) ^ 2
      + (1.0 / 2.35 / np_interp line_um spec_wobs spec_R_fwhm N) ^ 2)
    * line_um

/-- Embedding of `sample_gaussian_line_numba` (source lines 109-155): it
delegates to the pixel-integrated Gaussian with `dx = None`. -/
def sample_gaussian_line_numba (spec_wobs spec_R_fwhm : ℕ → ℝ)
    (line_um line_flux velocity_sigma : ℝ) (N : ℕ) : ℕ → ℝ :=
  pixel_integrated_gaussian_numba spec_wobs line_um
    (fun _ => lineDw spec_wobs spec_R_fwhm line_um velocity_sigma N)
    none line_flux N

/-- Per-pixel kernel width `dw` of `resample_template_numba` (source lines
61-66). -/
def dwOf (spec_wobs spec_R_fwhm : ℕ → ℝ) (velocity_sigma : ℝ) (i : ℕ) : ℝ :=
  Real.sqrt ((velocity_sigma / 3.0e5) ^ 2 + (1.0 / 2.35 / spec_R_fwhm i) ^ 2)
    * spec_wobs i

/-- Gaussian weight evaluated at template wavelength `k` for an observation
pixel centered at `wi` with kernel width `dwi` (source lines 100-102). -/
def gaussWeight (templ_wobs : ℕ → ℝ) (wi dwi : ℝ) (k : ℕ) : ℝ :=
  Real.exp (-(templ_wobs k - wi) ^ 2 / 2 / dwi ^ 2)
    / Real.sqrt (2 * Real.pi * dwi ^ 2)

/-- Model of `np.trapz(y[lo:hi], x[lo:hi])`: trapezoidal quadrature over the
half-open slice `[lo, hi)`. -/
def trapzSum (y xw : ℕ → ℝ) (lo hi : ℕ) : ℝ :=
  ∑ k ∈ Finset.Ico lo (hi - 1), (xw (k + 1) - xw k) * (y k + y (k + 1)) / 2

/-- The lower-window advance of `resample_template_numba` (source lines 81-82):
`while (templ_wobs[ilo] < target) & (ilo < Nt - 1): ilo += 1`. -/
def advanceLo (tw : ℕ → ℝ) (Nt : ℕ) (target : ℝ) (ilo : ℕ) : ℕ :=
  if h : tw ilo < target ∧ ilo < Nt - 1 then advanceLo tw Nt target (ilo + 1) else ilo
termination_by Nt - 1 - ilo
decreasing_by omega

/-- The upper-window advance of `resample_template_numba` (source lines 89-90):
`while (templ_wobs[ihi] < target) & (ihi < Nt): ihi += 1`. -/
def advanceHi (tw : ℕ → ℝ) (Nt : ℕ) (target : ℝ) (ihi : ℕ) : ℕ :=
  if h : tw ihi < target ∧ ihi < Nt then advanceHi tw Nt target (ihi + 1) else ihi
termination_by Nt - ihi
decreasing_by omega

/-- Pixel loop of `resample_template_numba` (source lines 79-104), with the
loop counter expressed through the remaining fuel (`i = N - fuel` along the
canonical run).  Each iteration advances `ilo`, skips the pixel when `ilo`
is still `0`, steps `ilo` back by one, advances `ihi`, and then either takes
the nearest-neighbour fallback (`ilo >= ihi`), the early-exit `break`
(`ilo == Nt - 1`, returning the output built so far), or the trapezoidal
integral of the weighted template over the window. -/
def resampleGo (sw R tw tf : ℕ → ℝ) (vs nsig : ℝ) (Nt : ℕ) :
    ℕ → ℕ → ℕ → ℕ → (ℕ → ℝ) → ℕ → ℝ
  | 0, _, _, _, res => res
  | fuel + 1, i, ilo, ihi, res =>
    let dwi := dwOf sw R vs i
    let ilo1 := advanceLo tw Nt (sw i - nsig * dwi) ilo
    if ilo1 = 0 then
      resampleGo sw R tw tf vs nsig Nt fuel (i + 1) ilo1 ihi res
    else
      let ilo2 := ilo1 - 1
      let ihi1 := advanceHi tw Nt (sw i + nsig * dwi) ihi
      if ihi1 ≤ ilo2 then
        resampleGo sw R tw tf vs nsig Nt fuel (i + 1) ilo2 ihi1
          (Function.update res i (tf ihi1))
      else if ilo2 = Nt - 1 then
        res
      else
        resampleGo sw R tw tf vs nsig Nt fuel (i + 1) ilo2 ihi1
          (Function.update res i
            (trapzSum (fun k => tf k * gaussWeight tw (sw i) dwi k) tw ilo2 ihi1))

/-- Embedding of `resample_template_numba` (source lines 13-106).  The output
array is initialized as in the source, `np.zeros_like(spec_wobs) * fill_value`
(source line 75), and the pixel loop starts from `ilo = 0`, `ihi = 1`. -/
def resample_template_numba (spec_wobs spec_R_fwhm templ_wobs templ_flux : ℕ → ℝ)
    (velocity_sigma nsig fill_value : ℝ) (N Nt : ℕ) : ℕ → ℝ :=
  resampleGo spec_wobs spec_R_fwhm templ_wobs templ_flux velocity_sigma nsig Nt
    N 0 0 1 (fun _ => 0 * fill_value)

/-- Variant of the pixel loop with the early-exit branch removed: where the
source would test `ilo == Nt - 1` and `break`, this variant falls through to
the trapezoidal branch.  Used to state that the early exit is unreachable. -/
def resampleGoNB (sw R tw tf : ℕ → ℝ) (vs nsig : ℝ) (Nt : ℕ) :
    ℕ → ℕ → ℕ → ℕ → (ℕ → ℝ) → ℕ → ℝ
  | 0, _, _, _, res => res
  | fuel + 1, i, ilo, ihi, res =>
    let dwi := dwOf sw R vs i
    let ilo1 := advanceLo tw Nt (sw i - nsig * dwi) ilo
    if ilo1 = 0 then
      resampleGoNB sw R tw tf vs nsig Nt fuel (i + 1) ilo1 ihi res
    else
      let ilo2 := ilo1 - 1
      let ihi1 := advanceHi tw Nt (sw i + nsig * dwi) ihi
      if ihi1 ≤ ilo2 then
        resampleGoNB sw R tw tf vs nsig Nt fuel (i + 1) ilo2 ihi1
          (Function.update res i (tf ihi1))
      else
        resampleGoNB sw R tw tf vs nsig Nt fuel (i + 1) ilo2 ihi1
          (Function.update res i
            (trapzSum (fun k => tf k * gaussWeight tw (sw i) dwi k) tw ilo2 ihi1))

/-- Resampler with the dead early-exit branch removed. -/
def resample_template_noBreak (spec_wobs spec_R_fwhm templ_wobs templ_flux : ℕ → ℝ)
    (velocity_sigma nsig fill_value : ℝ) (N Nt : ℕ) : ℕ → ℝ :=
  resampleGoNB spec_wobs spec_R_fwhm templ_wobs templ_flux velocity_sigma nsig Nt
    N 0 0 1 (fun _ => 0 * fill_value)

/-- State invariant of the two-pointer window carried across pixels of
`resample_template_numba`: `ilo` is either still at the start or has room for
the back-step (`ilo + 2 ≤ Nt`), and `ihi` stays within `[1, Nt]`. -/
def ResampInv (Nt ilo ihi : ℕ) : Prop :=
  (ilo = 0 ∨ ilo + 2 ≤ Nt) ∧ 1 ≤ ihi ∧ ihi ≤ Nt

/-- Row of the Lyman-series / Lyman-alpha-forest coefficient table `_LAF`
(source lines 243-285): series member, rest wavelength, three LAF
coefficients. -/
structure LAFRow where
  n : ℕ
  lam : ℝ
  a1 : ℝ
  a2 : ℝ
  a3 : ℝ

/-- Row of the damped-Lyman-alpha coefficient table `_DLA` (source lines
292-334): series member, rest wavelength, two DLA coefficients. -/
structure DLARow where
  n : ℕ
  lam : ℝ
  d1 : ℝ
  d2 : ℝ

/-- The `_LAF` table of `compute_igm`, transcribed from source lines 244-284
(39 rows, Lyman-series members j = 2..40). -/
def LAFtable : List LAFRow :=
  [⟨2, 1215.670, 1.68976e-02, 2.35379e-03, 1.02611e-04⟩,
   ⟨3, 1025.720, 4.69229e-03, 6.53625e-04, 2.84940e-05⟩,
   ⟨4, 972.537, 2.23898e-03, 3.11884e-04, 1.35962e-05⟩,
   ⟨5, 949.743, 1.31901e-03, 1.83735e-04, 8.00974e-06⟩,
   ⟨6, 937.803, 8.70656e-04, 1.21280e-04, 5.28707e-06⟩,
   ⟨7, 930.748, 6.17843e-04, 8.60640e-05, 3.75186e-06⟩,
   ⟨8, 926.226, 4.60924e-04, 6.42055e-05, 2.79897e-06⟩,
   ⟨9, 923.150, 3.56887e-04, 4.97135e-05, 2.16720e-06⟩,
   ⟨10, 920.963, 2.84278e-04, 3.95992e-05, 1.72628e-06⟩,
   ⟨11, 919.352, 2.31771e-04, 3.22851e-05, 1.40743e-06⟩,
   ⟨12, 918.129, 1.92348e-04, 2.67936e-05, 1.16804e-06⟩,
   ⟨13, 917.181, 1.62155e-04, 2.25878e-05, 9.84689e-07⟩,
   ⟨14, 916.429, 1.38498e-04, 1.92925e-05, 8.41033e-07⟩,
   ⟨15, 915.824, 1.19611e-04, 1.66615e-05, 7.26340e-07⟩,
   ⟨16, 915.329, 1.04314e-04, 1.45306e-05, 6.33446e-07⟩,
   ⟨17, 914.919, 9.17397e-05, 1.27791e-05, 5.57091e-07⟩,
   ⟨18, 914.576, 8.12784e-05, 1.13219e-05, 4.93564e-07⟩,
   ⟨19, 914.286, 7.25069e-05, 1.01000e-05, 4.40299e-07⟩,
   ⟨20, 914.039, 6.50549e-05, 9.06198e-06, 3.95047e-07⟩,
   ⟨21, 913.826, 5.86816e-05, 8.17421e-06, 3.56345e-07⟩,
   ⟨22, 913.641, 5.31918e-05, 7.40949e-06, 3.23008e-07⟩,
   ⟨23, 913.480, 4.84261e-05, 6.74563e-06, 2.94068e-07⟩,
   ⟨24, 913.339, 4.42740e-05, 6.16726e-06, 2.68854e-07⟩,
   ⟨25, 913.215, 4.06311e-05, 5.65981e-06, 2.46733e-07⟩,
   ⟨26, 913.104, 3.73821e-05, 5.20723e-06, 2.27003e-07⟩,
   ⟨27, 913.006, 3.45377e-05, 4.81102e-06, 2.09731e-07⟩,
   ⟨28, 912.918, 3.19891e-05, 4.45601e-06, 1.94255e-07⟩,
   ⟨29, 912.839, 2.97110e-05, 4.13867e-06, 1.80421e-07⟩,
   ⟨30, 912.768, 2.76635e-05, 3.85346e-06, 1.67987e-07⟩,
   ⟨31, 912.703, 2.58178e-05, 3.59636e-06, 1.56779e-07⟩,
   ⟨32, 912.645, 2.41479e-05, 3.36374e-06, 1.46638e-07⟩,
   ⟨33, 912.592, 2.26347e-05, 3.15296e-06, 1.37450e-07⟩,
   ⟨34, 912.543, 2.12567e-05, 2.96100e-06, 1.29081e-07⟩,
   ⟨35, 912.499, 1.99967e-05, 2.78549e-06, 1.21430e-07⟩,
   ⟨36, 912.458, 1.88476e-05, 2.62543e-06, 1.14452e-07⟩,
   ⟨37, 912.420, 1.77928e-05, 2.47850e-06, 1.08047e-07⟩,
   ⟨38, 912.385, 1.68222e-05, 2.34330e-06, 1.02153e-07⟩,
   ⟨39, 912.353, 1.59286e-05, 2.21882e-06, 9.67268e-08⟩,
   ⟨40, 912.324, 1.50996e-05, 2.10334e-06, 9.16925e-08⟩]

/-- The `_DLA` table of `compute_igm`, transcribed from source lines 293-333
(39 rows, Lyman-series members j = 2..40). -/
def DLAtable : List DLARow :=
  [⟨2, 1215.670, 1.61698e-04, 5.38995e-05⟩,
   ⟨3, 1025.720, 1.54539e-04, 5.15129e-05⟩,
   ⟨4, 972.537, 1.49767e-04, 4.99222e-05⟩,
   ⟨5, 949.743, 1.46031e-04, 4.86769e-05⟩,
   ⟨6, 937.803, 1.42893e-04, 4.76312e-05⟩,
   ⟨7, 930.748, 1.40159e-04, 4.67196e-05⟩,
   ⟨8, 926.226, 1.37714e-04, 4.59048e-05⟩,
   ⟨9, 923.150, 1.35495e-04, 4.51650e-05⟩,
   ⟨10, 920.963, 1.33452e-04, 4.44841e-05⟩,
   ⟨11, 919.352, 1.31561e-04, 4.38536e-05⟩,
   ⟨12, 918.129, 1.29785e-04, 4.32617e-05⟩,
   ⟨13, 917.181, 1.28117e-04, 4.27056e-05⟩,
   ⟨14, 916.429, 1.26540e-04, 4.21799e-05⟩,
   ⟨15, 915.824, 1.25041e-04, 4.16804e-05⟩,
   ⟨16, 915.329, 1.23614e-04, 4.12046e-05⟩,
   ⟨17, 914.919, 1.22248e-04, 4.07494e-05⟩,
   ⟨18, 914.576, 1.20938e-04, 4.03127e-05⟩,
   ⟨19, 914.286, 1.19681e-04, 3.98938e-05⟩,
   ⟨20, 914.039, 1.18469e-04, 3.94896e-05⟩,
   ⟨21, 913.826, 1.17298e-04, 3.90995e-05⟩,
   ⟨22, 913.641, 1.16167e-04, 3.87225e-05⟩,
   ⟨23, 913.480, 1.15071e-04, 3.83572e-05⟩,
   ⟨24, 913.339, 1.14011e-04, 3.80037e-05⟩,
   ⟨25, 913.215, 1.12983e-04, 3.76609e-05⟩,
   ⟨26, 913.104, 1.11972e-04, 3.73241e-05⟩,
   ⟨27, 913.006, 1.11002e-04, 3.70005e-05⟩,
   ⟨28, 912.918, 1.10051e-04, 3.66836e-05⟩,
   ⟨29, 912.839, 1.09125e-04, 3.63749e-05⟩,
   ⟨30, 912.768, 1.08220e-04, 3.60734e-05⟩,
   ⟨31, 912.703, 1.07337e-04, 3.57789e-05⟩,
   ⟨32, 912.645, 1.06473e-04, 3.54909e-05⟩,
   ⟨33, 912.592, 1.05629e-04, 3.52096e-05⟩,
   ⟨34, 912.543, 1.04802e-04, 3.49340e-05⟩,
   ⟨35, 912.499, 1.03991e-04, 3.46636e-05⟩,
   ⟨36, 912.458, 1.03198e-04, 3.43994e-05⟩,
   ⟨37, 912.420, 1.02420e-04, 3.41402e-05⟩,
   ⟨38, 912.385, 1.01657e-04, 3.38856e-05⟩,
   ⟨39, 912.353, 1.00908e-04, 3.36359e-05⟩,
   ⟨40, 912.324, 1.00168e-04, 3.33895e-05⟩]

/-- Redshift threshold `z1LAF` (source line 345). -/
def z1LAF : ℝ := 1.2

/-- Redshift threshold `z2LAF` (source line 346). -/
def z2LAF : ℝ := 4.7

/-- Redshift threshold `z1DLA` (source line 351). -/
def z1DLA : ℝ := 2.0

/-- Lyman-limit wavelength `lamL` (source line 356). -/
def lamL : ℝ := 911.8

/-- Lyman-series LAF contribution of one table row (source lines 368-376). -/
def lsLAFterm (z wi : ℝ) (r : LAFRow) : ℝ :=
  if wi < r.lam * (1 + z) then
    if wi < r.lam * (1 + z1LAF) then
      r.a1 * (wi / r.lam) ^ (1.2 : ℝ)
    else if r.lam * (1 + z1LAF) ≤ wi ∧ wi < r.lam * (1 + z2LAF) then
      r.a2 * (wi / r.lam) ^ (3.7 : ℝ)
    else
      r.a3 * (wi / r.lam) ^ (5.5 : ℝ)
  else 0

/-- Lyman-series DLA contribution of one table row (source lines 378-383). -/
def lsDLAterm (z wi : ℝ) (d : DLARow) : ℝ :=
  if wi < d.lam * (1 + z) then
    if wi < d.lam * (1 + z1DLA) then
      d.d1 * (wi / d.lam) ^ 2
    else
      d.d2 * (wi / d.lam) ^ 3
  else 0

/-- Lyman-continuum DLA contribution (source lines 387-413). -/
def lcDLA (z wi : ℝ) : ℝ :=
  if z < z1DLA then
    0.2113 * (1 + z) ^ 2
      - 0.07661 * (1 + z) ^ (2.3 : ℝ) * (wi / lamL) ^ ((-0.3 : ℝ))
      - 0.1347 * (wi / lamL) ^ 2
  else if lamL * (1 + z1DLA) ≤ wi then
    0.04696 * (1 + z) ^ 3
      - 0.01779 * (1 + z) ^ (3.3 : ℝ) * (wi / lamL) ^ ((-0.3 : ℝ))
      - 0.02916 * (wi / lamL) ^ 3
  else
    0.6340 + 0.04696 * (1 + z) ^ 3
      - 0.01779 * (1 + z) ^ (3.3 : ℝ) * (wi / lamL) ^ ((-0.3 : ℝ))
      - 0.1347 * (wi / lamL) ^ 2
      - 0.2905 * (wi / lamL) ^ ((-0.3 : ℝ))

/-- Lyman-continuum LAF contribution (source lines 416-450).  At exactly
`wi = lamL * (1 + z2LAF)` in the `z ≥ z2LAF` regime the source chain of
`elif`s adds nothing, hence the final `else 0`. -/
def lcLAF (z wi : ℝ) : ℝ :=
  if z < z1LAF then
    0.3248 * ((wi / lamL) ^ (1.2 : ℝ)
      - (1 + z) ^ ((-0.9 : ℝ)) * (wi / lamL) ^ (2.1 : ℝ))
  else if z < z2LAF then
    if lamL * (1 + z1LAF) ≤ wi then
      2.545e-2 * ((1 + z) ^ (1.6 : ℝ) * (wi / lamL) ^ (2.1 : ℝ)
        - (wi / lamL) ^ (3.7 : ℝ))
    else
      2.545e-2 * (1 + z) ^ (1.6 : ℝ) * (wi / lamL) ^ (2.1 : ℝ)
        + 0.3248 * (wi / lamL) ^ (1.2 : ℝ)
        - 0.2496 * (wi / lamL) ^ (2.1 : ℝ)
  else
    if lamL * (1 + z2LAF) < wi then
      5.221e-4 * ((1 + z) ^ (3.4 : ℝ) * (wi / lamL) ^ (2.1 : ℝ)
        - (wi / lamL) ^ (5.5 : ℝ))
    else if lamL * (1 + z1LAF) ≤ wi ∧ wi < lamL * (1 + z2LAF) then
      5.221e-4 * (1 + z) ^ (3.4 : ℝ) * (wi / lamL) ^ (2.1 : ℝ)
        + 0.2182 * (wi / lamL) ^ (2.1 : ℝ)
        - 2.545e-2 * (wi / lamL) ^ (3.7 : ℝ)
    else if wi < lamL * (1 + z1LAF) then
      5.221e-4 * (1 + z) ^ (3.4 : ℝ) * (wi / lamL) ^ (2.1 : ℝ)
        + 0.3248 * (wi / lamL) ^ (1.2 : ℝ)
        - 3.140e-2 * (wi / lamL) ^ (2.1 : ℝ)
    else 0

/-- Lyman-continuum contribution, gated by `wi < lamL * (1 + z)` (source line
386); the source adds the DLA part first and the LAF part second. -/
def lymanContinuum (z wi : ℝ) : ℝ :=
  if wi < lamL * (1 + z) then lcDLA z wi + lcLAF z wi else 0

/-- The zipped table the series loop of `compute_igm` iterates over: row `j`
carries the LAF and DLA coefficients of Lyman-series member `j + 2`. -/
def igmRows : List (LAFRow × DLARow) := LAFtable.zip DLAtable

/-- Lyman-series part of the optical depth, accumulated additively row by row
exactly as the source's `tau[i] +=` loop does (source lines 367-383). -/
def lymanSeriesTau (z wi : ℝ) : ℝ :=
  igmRows.foldl (fun t p => t + lsLAFterm z wi p.1 + lsDLAterm z wi p.2) 0

/-- Optical depth accumulated for one wavelength by `compute_igm`: zero
whenever `wi > 1300 * (1 + z)` (source lines 362-364), otherwise the series
sum plus the Lyman-continuum terms. -/
def tauIGM (z wi : ℝ) : ℝ :=
  if wi > 1300.0 * (1 + z) then 0
  else lymanSeriesTau z wi + lymanContinuum z wi

/-- Embedding of `compute_igm` (source lines 219-454): per-wavelength
transmission `exp(-scale_tau * tau)`.  The source's loop iterations over
`wobs` are independent, so the array result is the per-index map. -/
def compute_igm (z : ℝ) (wobs : ℕ → ℝ) (scale_tau : ℝ) : ℕ → ℝ :=
  fun i => Real.exp (-scale_tau * tauIGM z (wobs i))

/-- Lyman-series LAF row contribution as the specification words it: under
`wi < λ·(1+z)`, three mutually exclusive additive branches selected by
comparing `wi` with `λ·(1+1.2)` and `λ·(1+4.7)`. -/
def specLAFterm (z wi : ℝ) (r : LAFRow) : ℝ :=
  if wi < r.lam * (1 + z) then
    (if wi < r.lam * (1 + 1.2) then r.a1 * (wi / r.lam) ^ (1.2 : ℝ) else 0)
      + (if r.lam * (1 + 1.2) ≤ wi ∧ wi < r.lam * (1 + 4.7) then
          r.a2 * (wi / r.lam) ^ (3.7 : ℝ) else 0)
      + (if r.lam * (1 + 4.7) ≤ wi then r.a3 * (wi / r.lam) ^ (5.5 : ℝ) else 0)
  else 0

/-- Lyman-series DLA row contribution as the specification words it: under
`wi < λ·(1+z)`, two branches selected by comparing `wi` with `λ·(1+2.0)`. -/
def specDLAterm (z wi : ℝ) (d : DLARow) : ℝ :=
  if wi < d.lam * (1 + z) then
    (if wi < d.lam * (1 + 2.0) then d.d1 * (wi / d.lam) ^ 2 else 0)
      + (if d.lam * (1 + 2.0) ≤ wi then d.d2 * (wi / d.lam) ^ 3 else 0)
  else 0

/-- Indices of `x` read by the `dx = None` pixel-width derivation (source
lines 196-199), with numpy's negative-index convention already resolved:
the interior slice assignment reads `x[2:]` and `x[:-2]`, the first-sample
line reads `x[1]` and `x[0]`, and the last-sample line reads `x[-1] = x[N-1]`
and `x[-2] = x[N-2]` (as integers, so `N - 2 = -1` when `N = 1`). -/
def gradReads (N : ℕ) : List ℤ :=
  ((List.range (N - 2)).map fun k : ℕ => (k : ℤ) + 2)
    ++ ((List.range (N - 2)).map fun k : ℕ => (k : ℤ))
    ++ [1, 0] ++ [(N : ℤ) - 1, (N : ℤ) - 2]

/-- An integer index is a valid read into an array of length `N`. -/
def idxInBounds (N : ℕ) (r : ℤ) : Prop := 0 ≤ r ∧ r < (N : ℤ)

instance (N : ℕ) (r : ℤ) : Decidable (idxInBounds N r) := by
  unfold idxInBounds; infer_instance

end

/-! ## Helper lemmas about the window advances -/

lemma advanceLo_stop (tw : ℕ → ℝ) (Nt : ℕ) (target : ℝ) (ilo : ℕ)
    (h : ¬(tw ilo < target ∧ ilo < Nt - 1)) : advanceLo tw Nt target ilo = ilo := by
  rw [advanceLo]
  simp [h]

lemma advanceLo_step (tw : ℕ → ℝ) (Nt : ℕ) (target : ℝ) (ilo : ℕ)
    (h : tw ilo < target) (h2 : ilo < Nt - 1) :
    advanceLo tw Nt target ilo = advanceLo tw Nt target (ilo + 1) := by
  rw [advanceLo]
  simp [h, h2]

lemma advanceLo_le (tw : ℕ → ℝ) (Nt : ℕ) (target : ℝ) :
    ∀ ilo, ilo ≤ Nt - 1 → advanceLo tw Nt target ilo ≤ Nt - 1 := by
  suffices H : ∀ m ilo, Nt - 1 - ilo ≤ m → ilo ≤ Nt - 1 →
      advanceLo tw Nt target ilo ≤ Nt - 1 by
    intro ilo h
    exact H (Nt - 1 - ilo) ilo le_rfl h
  intro m
  induction m with
  | zero =>
    intro ilo hm h
    rw [advanceLo]
    split
    · next h' => exact absurd h'.2 (by omega)
    · exact h
  | succ m ih =>
    intro ilo hm h
    rw [advanceLo]
    split
    · next h' => exact ih (ilo + 1) (by omega) (by omega)
    · exact h

lemma advanceHi_stop (tw : ℕ → ℝ) (Nt : ℕ) (target : ℝ) (ihi : ℕ)
    (h : ¬(tw ihi < target ∧ ihi < Nt)) : advanceHi tw Nt target ihi = ihi := by
  rw [advanceHi]
  simp [h]

lemma advanceHi_step (tw : ℕ → ℝ) (Nt : ℕ) (target : ℝ) (ihi : ℕ)
    (h : tw ihi < target) (h2 : ihi < Nt) :
    advanceHi tw Nt target ihi = advanceHi tw Nt target (ihi + 1) := by
  rw [advanceHi]
  simp [h, h2]

lemma advanceHi_le (tw : ℕ → ℝ) (Nt : ℕ) (target : ℝ) :
    ∀ ihi, ihi ≤ Nt → advanceHi tw Nt target ihi ≤ Nt := by
  suffices H : ∀ m ihi, Nt - ihi ≤ m → ihi ≤ Nt → advanceHi tw Nt target ihi ≤ Nt by
    intro ihi h
    exact H (Nt - ihi) ihi le_rfl h
  intro m
  induction m with
  | zero =>
    intro ihi hm h
    rw [advanceHi]
    split
    · next h' => exact absurd h'.2 (by omega)
    · exact h
  | succ m ih =>
    intro ihi hm h
    rw [advanceHi]
    split
    · next h' => exact ih (ihi + 1) (by omega) (by omega)
    · exact h

lemma advanceHi_ge (tw : ℕ → ℝ) (Nt : ℕ) (target : ℝ) :
    ∀ ihi, ihi ≤ advanceHi tw Nt target ihi := by
  suffices H : ∀ m ihi, Nt - ihi ≤ m → ihi ≤ advanceHi tw Nt target ihi by
    intro ihi
    exact H (Nt - ihi) ihi le_rfl
  intro m
  induction m with
  | zero =>
    intro ihi hm
    rw [advanceHi]
    split
    · next h' => exact absurd h'.2 (by omega)
    · exact le_rfl
  | succ m ih =>
    intro ihi hm
    rw [advanceHi]
    split
    · next h' => exact le_trans (by omega) (ih (ihi + 1) (by omega))
    · exact le_rfl

/-! ## Helper lemmas about the IGM series accumulation -/

lemma foldl_tau_aux (z wi : ℝ) :
    ∀ (l : List (LAFRow × DLARow)) (a : ℝ),
      l.foldl (fun t p => t + lsLAFterm z wi p.1 + lsDLAterm z wi p.2) a
        = a + (l.map fun p => lsLAFterm z wi p.1 + lsDLAterm z wi p.2).sum := by
  intro l
  induction l with
  | nil => intro a; simp
  | cons x xs ih =>
    intro a
    simp only [List.foldl_cons, List.map_cons, List.sum_cons]
    rw [ih]
    ring

lemma lymanSeriesTau_eq_sum (z wi : ℝ) :
    lymanSeriesTau z wi
      = (igmRows.map fun p => lsLAFterm z wi p.1 + lsDLAterm z wi p.2).sum := by
  unfold lymanSeriesTau
  rw [foldl_tau_aux]
  ring

lemma LAFtable_bounds : ∀ r ∈ LAFtable,
    (912 : ℝ) ≤ r.lam ∧ 0 ≤ r.a1 ∧ r.a1 ≤ 0.0169 ∧ 0 ≤ r.a2 ∧ 0 ≤ r.a3 := by
  intro r hr
  fin_cases hr <;> norm_num

lemma DLAtable_bounds : ∀ d ∈ DLAtable,
    (912 : ℝ) ≤ d.lam ∧ 0 ≤ d.d1 ∧ d.d1 ≤ 0.00017 ∧ 0 ≤ d.d2 := by
  intro d hd
  fin_cases hd <;> norm_num

lemma rpow_div_ten_lower (a x : ℝ) (n : ℕ) (ha : 0 ≤ a) (hx : 0 ≤ x)
    (h : a ^ (10 : ℕ) ≤ x ^ n) : a ≤ x ^ ((n : ℝ) / 10) := by
  calc a = (a ^ (10 : ℕ)) ^ ((1 : ℝ) / 10) := by
        rw [← Real.rpow_natCast a 10, ← Real.rpow_mul ha]
        norm_num
    _ ≤ (x ^ n) ^ ((1 : ℝ) / 10) :=
        Real.rpow_le_rpow (by positivity) h (by norm_num)
    _ = x ^ ((n : ℝ) / 10) := by
        rw [← Real.rpow_natCast x n, ← Real.rpow_mul hx, mul_one_div]

/-! ## Claim theorems -/

/-- C6: with explicit pixel widths, `pixel_integrated_gaussian_numba` returns
at every index `i` exactly
`(erf((x0 + dx[i]/2)/(sqrt 2 * sigma[i])) - erf((x0 - dx[i]/2)/(sqrt 2 * sigma[i]))) / 2 / dx[i] * normalization`
with `x0 = x[i] - mu`. -/
theorem c6_pixel_integrated_gaussian_formula
    (x : ℕ → ℝ) (mu : ℝ) (sigma : ℕ → ℝ) (d : ℕ → ℝ) (normalization : ℝ)
    (N i : ℕ) (hdx : 0 < d i) :
    pixel_integrated_gaussian_numba x mu sigma (some d) normalization N i =
      (erf ((x i - mu + d i / 2) / (Real.sqrt 2 * sigma i))
        - erf ((x i - mu - d i / 2) / (Real.sqrt 2 * sigma i))) / 2 / d i
        * normalization := by
  unfold pixel_integrated_gaussian_numba xdxOf
  simp [mul_one]

/-- Witness for C6 at a concrete input. -/
theorem c6_pixel_integrated_gaussian_formula_witness :
    (0 : ℝ) < 1 ∧
      pixel_integrated_gaussian_numba (fun _ => (5 : ℝ)) 0 (fun _ => 1)
          (some fun _ => 1) 1 3 0 =
        (erf (((5 : ℝ) - 0 + 1 / 2) / (Real.sqrt 2 * 1))
          - erf (((5 : ℝ) - 0 - 1 / 2) / (Real.sqrt 2 * 1))) / 2 / 1 * 1 :=
  ⟨by norm_num,
    c6_pixel_integrated_gaussian_formula (fun _ => (5 : ℝ)) 0 (fun _ => 1)
      (fun _ => 1) 1 3 0 (by norm_num)⟩

/-- C7: when `dx` is omitted the pixel widths are the centered difference on
the interior, and the one-sided differences at the first and last samples. -/
theorem c7_default_pixel_widths (x : ℕ → ℝ) (N : ℕ) (hN : 2 ≤ N) :
    xdxOf x N none 0 = x 1 - x 0 ∧
    xdxOf x N none (N - 1) = x (N - 1) - x (N - 2) ∧
    ∀ i, 1 ≤ i → i + 1 < N → xdxOf x N none i = (x (i + 1) - x (i - 1)) / 2 := by
  simp only [xdxOf]
  refine ⟨?_, ?_, ?_⟩
  · rw [Function.update_noteq (by omega : (0 : ℕ) ≠ N - 1), Function.update_same]
  · rw [Function.update_same]
  · intro i h1 h2
    rw [Function.update_noteq (by omega : i ≠ N - 1),
      Function.update_noteq (by omega : i ≠ 0)]
    exact if_pos ⟨h1, h2⟩

/-- Witness for C7 at a concrete input. -/
theorem c7_default_pixel_widths_witness :
    2 ≤ 3 ∧ xdxOf (fun _ => (4 : ℝ)) 3 none 1 = ((4 : ℝ) - 4) / 2 :=
  ⟨by norm_num,
    (c7_default_pixel_widths (fun _ => (4 : ℝ)) 3 (by norm_num)).2.2 1
      (by norm_num) (by norm_num)⟩

/-- C2 counterexample: the kernel width is not computed with the speed-of-light
constant 299800 km/s; at `spec_wobs = R = 1`, `velocity_sigma = 299800` the
code value (which divides by `3.0e5`) differs from the claimed formula. -/
theorem c2_speed_of_light_counterexample :
    dwOf (fun _ => 1) (fun _ => 1) 299800 0 ≠
      (1 : ℝ) * Real.sqrt (((299800 : ℝ) / 299800) ^ 2 + (1 / (2.35 * 1)) ^ 2) := by
  unfold dwOf
  simp only [mul_one, one_mul]
  intro h
  have h2 : ((299800 : ℝ) / 3.0e5) ^ 2 + (1.0 / 2.35 / 1) ^ 2 =
      ((299800 : ℝ) / 299800) ^ 2 + (1 / 2.35) ^ 2 :=
    (Real.sqrt_inj (by positivity) (by positivity)).mp h
  norm_num at h2

/-- C2 as amended: in both kernels the Gaussian width is
`wavelength * sqrt((velocity_sigma/300000)^2 + (1/(2.35*R))^2)` with the
constant `3.0e5 = 300000` km/s (not 299800); for the line sampler `R` is the
resolution linearly interpolated at `line_um`. -/
theorem c2_kernel_width_amended :
    (∀ (sw R : ℕ → ℝ) (vs : ℝ) (i : ℕ),
        dwOf sw R vs i =
          sw i * Real.sqrt ((vs / 300000) ^ 2 + (1 / (2.35 * R i)) ^ 2)) ∧
    (∀ (sw R : ℕ → ℝ) (line_um vs : ℝ) (N : ℕ),
        lineDw sw R line_um vs N =
          line_um * Real.sqrt ((vs / 300000) ^ 2
            + (1 / (2.35 * np_interp line_um sw R N)) ^ 2)) := by
  constructor
  · intro sw R vs i
    unfold dwOf
    rw [mul_comm]
    congr 1
    rw [div_div]
    norm_num
  · intro sw R line_um vs N
    unfold lineDw
    rw [mul_comm]
    congr 1
    rw [div_div]
    norm_num

/-- C10: with `dx` omitted on a length-1 input the width derivation reads the
out-of-bounds indices `x[1]` and `x[N-2] = x[-1 as an absolute index]`; for
`N ≥ 2` every read is in bounds; and `sample_gaussian_line_numba` delegates to
the pixel-integrated Gaussian with `dx` omitted, inheriting the precondition. -/
theorem c10_gradient_read_safety :
    (¬ ∀ r ∈ gradReads 1, idxInBounds 1 r) ∧
    (∀ N, 2 ≤ N → ∀ r ∈ gradReads N, idxInBounds N r) ∧
    (∀ (sw R : ℕ → ℝ) (line_um line_flux vs : ℝ) (N : ℕ),
        sample_gaussian_line_numba sw R line_um line_flux vs N =
          pixel_integrated_gaussian_numba sw line_um
            (fun _ => lineDw sw R line_um vs N) none line_flux N) := by
  refine ⟨?_, ?_, fun _ _ _ _ _ _ => rfl⟩
  · intro hall
    exact absurd (hall 1 (by decide)) (by decide)
  · intro N hN r hr
    unfold idxInBounds
    unfold gradReads at hr
    rcases List.mem_append.mp hr with h | h
    · rcases List.mem_append.mp h with h' | h'
      · rcases List.mem_append.mp h' with h2 | h2
        · obtain ⟨k, hk, rfl⟩ := List.mem_map.mp h2
          have hk' := List.mem_range.mp hk
          omega
        · obtain ⟨k, hk, rfl⟩ := List.mem_map.mp h2
          have hk' := List.mem_range.mp hk
          omega
      · fin_cases h' <;> omega
    · fin_cases h <;> omega

/-- Witness for C10 at a concrete input. -/
theorem c10_gradient_read_safety_witness : 2 ≤ 2 ∧ idxInBounds 2 1 :=
  ⟨by norm_num, c10_gradient_read_safety.2.1 2 (by norm_num) 1 (by decide)⟩

/-- C8: `compute_igm` returns `exp(-scale_tau * tau)` at every index, where
`tau` is the additively accumulated optical depth; whenever
`wobs[i] > 1300*(1+z)` the accumulation is skipped, `tau = 0`, and the
transmission is exactly 1. -/
theorem c8_transmission_form :
    (∀ (z s : ℝ) (wobs : ℕ → ℝ) (i : ℕ),
        compute_igm z wobs s i = Real.exp (-s * tauIGM z (wobs i))) ∧
    (∀ z wi : ℝ, 1300.0 * (1 + z) < wi → tauIGM z wi = 0) ∧
    (∀ (z s : ℝ) (wobs : ℕ → ℝ) (i : ℕ),
        1300.0 * (1 + z) < wobs i → compute_igm z wobs s i = 1) ∧
    (∀ z wi : ℝ, ¬ 1300.0 * (1 + z) < wi →
        tauIGM z wi =
          (igmRows.map fun p => lsLAFterm z wi p.1 + lsDLAterm z wi p.2).sum
            + lymanContinuum z wi) := by
  refine ⟨fun _ _ _ _ => rfl, ?_, ?_, ?_⟩
  · intro z wi h
    unfold tauIGM
    rw [if_pos h]
  · intro z s wobs i h
    show Real.exp (-s * tauIGM z (wobs i)) = 1
    unfold tauIGM
    rw [if_pos h]
    simp
  · intro z wi h
    unfold tauIGM
    rw [if_neg h, lymanSeriesTau_eq_sum]

/-- Witness for C8 at concrete inputs, one per hypothesis-bearing part. -/
theorem c8_transmission_form_witness :
    (1300.0 * (1 + (0 : ℝ)) < 5000 ∧ tauIGM 0 5000 = 0) ∧
    compute_igm 0 (fun _ => 5000) 2 0 = 1 ∧
    (¬ 1300.0 * (1 + (0 : ℝ)) < 1000 ∧
      tauIGM 0 1000 =
        (igmRows.map fun p => lsLAFterm 0 1000 p.1 + lsDLAterm 0 1000 p.2).sum
          + lymanContinuum 0 1000) :=
  ⟨⟨by norm_num, c8_transmission_form.2.1 0 5000 (by norm_num)⟩,
    c8_transmission_form.2.2.1 0 2 (fun _ => 5000) 0 (by norm_num),
    ⟨by norm_num, c8_transmission_form.2.2.2 0 1000 (by norm_num)⟩⟩

/-- C5: for every table row, the Lyman-series LAF term is added exactly when
`wi < λ·(1+z)` with the three power-law branches split at `λ·(1+1.2)` and
`λ·(1+4.7)`, and the DLA term independently under the same gate with branches
split at `λ·(1+2.0)`; the accumulated series sum is the sum of these
specification-shaped row terms. -/
theorem c5_series_branch_structure :
    (∀ (z wi : ℝ) (r : LAFRow), r ∈ LAFtable →
        lsLAFterm z wi r = specLAFterm z wi r) ∧
    (∀ (z wi : ℝ) (d : DLARow), lsDLAterm z wi d = specDLAterm z wi d) ∧
    (∀ z wi : ℝ, lymanSeriesTau z wi =
        (igmRows.map fun p => specLAFterm z wi p.1 + specDLAterm z wi p.2).sum) := by
  have hLAF : ∀ (z wi : ℝ) (r : LAFRow), r ∈ LAFtable →
      lsLAFterm z wi r = specLAFterm z wi r := by
    intro z wi r hr
    have hl := (LAFtable_bounds r hr).1
    unfold lsLAFterm specLAFterm z1LAF z2LAF
    by_cases h0 : wi < r.lam * (1 + z)
    · rw [if_pos h0, if_pos h0]
      by_cases hA : wi < r.lam * (1 + 1.2)
      · rw [if_pos hA, if_pos hA,
          if_neg (fun h : _ ∧ _ => absurd hA (not_lt.mpr h.1)),
          if_neg (fun h : r.lam * (1 + 4.7) ≤ wi => by nlinarith)]
        ring
      · rw [if_neg hA, if_neg hA]
        by_cases hB : r.lam * (1 + 1.2) ≤ wi ∧ wi < r.lam * (1 + 4.7)
        · rw [if_pos hB, if_pos hB, if_neg (not_le.mpr hB.2)]
          ring
        · rw [if_neg hB, if_neg hB]
          have hge : r.lam * (1 + 1.2) ≤ wi := not_lt.mp hA
          have hC : r.lam * (1 + 4.7) ≤ wi := by
            rcases not_and_or.mp hB with h | h
            · exact absurd hge h
            · exact not_lt.mp h
          rw [if_pos hC]
          ring
    · rw [if_neg h0, if_neg h0]
  refine ⟨hLAF, ?_, ?_⟩
  · intro z wi d
    unfold lsDLAterm specDLAterm z1DLA
    by_cases h0 : wi < d.lam * (1 + z)
    · rw [if_pos h0, if_pos h0]
      by_cases hA : wi < d.lam * (1 + 2.0)
      · rw [if_pos hA, if_pos hA, if_neg (not_le.mpr hA)]
        ring
      · rw [if_neg hA, if_neg hA, if_pos (not_lt.mp hA)]
        ring
    · rw [if_neg h0, if_neg h0]
  · intro z wi
    rw [lymanSeriesTau_eq_sum]
    refine congrArg List.sum (List.map_congr_left ?_)
    rintro ⟨r, d⟩ hp
    obtain ⟨hrl, _⟩ := List.of_mem_zip hp
    rw [hLAF z wi r hrl]
    have hD : ∀ (dd : DLARow), lsDLAterm z wi dd = specDLAterm z wi dd := by
      intro dd
      unfold lsDLAterm specDLAterm z1DLA
      by_cases h0 : wi < dd.lam * (1 + z)
      · rw [if_pos h0, if_pos h0]
        by_cases hA : wi < dd.lam * (1 + 2.0)
        · rw [if_pos hA, if_pos hA, if_neg (not_le.mpr hA)]
          ring
        · rw [if_neg hA, if_neg hA, if_pos (not_lt.mp hA)]
          ring
      · rw [if_neg h0, if_neg h0]
    rw [hD d]

/-- The window state reachable by the pixel loop always satisfies
`ilo = 0 ∨ ilo + 2 ≤ Nt`, and under that invariant the early-exit branch of
`resampleGo` is never taken, so the loop with the `break` computes the same
output as the loop without it. -/
lemma resampleGo_eq_noBreak (sw R tw tf : ℕ → ℝ) (vs nsig : ℝ) (Nt : ℕ)
    (hNt : 1 ≤ Nt) :
    ∀ (fuel i ilo ihi : ℕ) (res : ℕ → ℝ), (ilo = 0 ∨ ilo + 2 ≤ Nt) →
      resampleGo sw R tw tf vs nsig Nt fuel i ilo ihi res
        = resampleGoNB sw R tw tf vs nsig Nt fuel i ilo ihi res := by
  intro fuel
  induction fuel with
  | zero => intro i ilo ihi res hinv; rfl
  | succ fuel ih =>
    intro i ilo ihi res hinv
    simp only [resampleGo, resampleGoNB]
    set ilo1 := advanceLo tw Nt (sw i - nsig * dwOf sw R vs i) ilo with hilo1
    by_cases h0 : ilo1 = 0
    · rw [if_pos h0, if_pos h0]
      exact ih (i + 1) ilo1 ihi res (Or.inl h0)
    · rw [if_neg h0, if_neg h0]
      have hle : ilo1 ≤ Nt - 1 := advanceLo_le tw Nt _ ilo (by omega)
      have h1 : 1 ≤ ilo1 := Nat.one_le_iff_ne_zero.mpr h0
      set ihi1 := advanceHi tw Nt (sw i + nsig * dwOf sw R vs i) ihi with hihi1
      by_cases hdeg : ihi1 ≤ ilo1 - 1
      · rw [if_pos hdeg, if_pos hdeg]
        exact ih _ _ _ _ (by omega)
      · rw [if_neg hdeg, if_neg hdeg, if_neg (by omega : ¬(ilo1 - 1 = Nt - 1))]
        exact ih _ _ _ _ (by omega)

/-- C3 as amended: the early-exit check `ilo == Nt - 1` is performed after
`ilo` has been stepped back, where `ilo ≤ Nt - 2` always holds, so the branch
is dead code: the resampler computes exactly what the break-free loop
computes, and remaining pixels are processed even when the lower search
saturates at the last template index. -/
theorem c3_break_is_dead_code (sw R tw tf : ℕ → ℝ) (vs nsig fill : ℝ)
    (N Nt : ℕ) (hNt : 1 ≤ Nt) :
    resample_template_numba sw R tw tf vs nsig fill N Nt
      = resample_template_noBreak sw R tw tf vs nsig fill N Nt :=
  resampleGo_eq_noBreak sw R tw tf vs nsig Nt hNt N 0 0 1 _ (Or.inl rfl)

/-- Witness for the amended C3 at a concrete input. -/
theorem c3_break_is_dead_code_witness :
    1 ≤ 2 ∧
      resample_template_numba (fun _ => 1) (fun _ => 1) (fun _ => 0) (fun _ => 0)
          0 0 1 1 2
        = resample_template_noBreak (fun _ => 1) (fun _ => 1) (fun _ => 0)
            (fun _ => 0) 0 0 1 1 2 :=
  ⟨by norm_num,
    c3_break_is_dead_code (fun _ => 1) (fun _ => 1) (fun _ => 0) (fun _ => 0)
      0 0 1 1 2 (by norm_num)⟩

/-- C9: under the reachable-state invariant, after the back-step
`ilo ≤ Nt - 2` and `1 ≤ ihi ≤ Nt` hold; hence in the degenerate-window branch
(`ihi ≤ ilo`) the read index into `templ_flux` satisfies `ihi ≤ Nt - 2`, in
bounds; and the invariant is preserved both on the skip path and on the
processed path. -/
theorem c9_window_invariant (tw : ℕ → ℝ) (Nt : ℕ) (t1 t2 : ℝ) (ilo ihi : ℕ)
    (hNt : 1 ≤ Nt) (hinv : ResampInv Nt ilo ihi) :
    (advanceLo tw Nt t1 ilo ≠ 0 →
        advanceLo tw Nt t1 ilo - 1 ≤ Nt - 2 ∧
        1 ≤ advanceHi tw Nt t2 ihi ∧ advanceHi tw Nt t2 ihi ≤ Nt ∧
        (advanceHi tw Nt t2 ihi ≤ advanceLo tw Nt t1 ilo - 1 →
          advanceHi tw Nt t2 ihi ≤ Nt - 2) ∧
        ResampInv Nt (advanceLo tw Nt t1 ilo - 1) (advanceHi tw Nt t2 ihi)) ∧
    (advanceLo tw Nt t1 ilo = 0 → ResampInv Nt 0 ihi) := by
  obtain ⟨hilo, hihi1, hihiN⟩ := hinv
  have hle : advanceLo tw Nt t1 ilo ≤ Nt - 1 := advanceLo_le tw Nt t1 ilo (by omega)
  have hhile : advanceHi tw Nt t2 ihi ≤ Nt := advanceHi_le tw Nt t2 ihi hihiN
  have hhige : ihi ≤ advanceHi tw Nt t2 ihi := advanceHi_ge tw Nt t2 ihi
  constructor
  · intro h0
    have h1 : 1 ≤ advanceLo tw Nt t1 ilo := Nat.one_le_iff_ne_zero.mpr h0
    exact ⟨by omega, by omega, hhile, fun hdeg => by omega,
      ⟨by omega, by omega, hhile⟩⟩
  · intro h0
    exact ⟨Or.inl rfl, hihi1, hihiN⟩

/-- Witness for C9 at a concrete state. -/
theorem c9_window_invariant_witness :
    (1 ≤ 2 ∧ ResampInv 2 0 1) ∧
      (advanceLo (fun _ => (0 : ℝ)) 2 (1 : ℝ) 0 = 0 → ResampInv 2 0 1) :=
  ⟨⟨by norm_num, Or.inl rfl, le_rfl, by norm_num⟩,
    (c9_window_invariant (fun _ => (0 : ℝ)) 2 1 0 0 1 (by norm_num)
      ⟨Or.inl rfl, le_rfl, by norm_num⟩).2⟩

/-- One pixel-loop iteration on the skip path (`ilo` still 0 after the lower
search). -/
lemma resampleGo_skip (sw R tw tf : ℕ → ℝ) (vs nsig : ℝ) (Nt fuel i ilo ihi : ℕ)
    (res : ℕ → ℝ)
    (h0 : advanceLo tw Nt (sw i - nsig * dwOf sw R vs i) ilo = 0) :
    resampleGo sw R tw tf vs nsig Nt (fuel + 1) i ilo ihi res
      = resampleGo sw R tw tf vs nsig Nt fuel (i + 1) 0 ihi res := by
  simp only [resampleGo]
  rw [if_pos h0, h0]

/-- One pixel-loop iteration on the trapezoid path (window nonempty, no
degenerate fallback, no break). -/
lemma resampleGo_trapz (sw R tw tf : ℕ → ℝ) (vs nsig : ℝ) (Nt fuel i ilo ihi : ℕ)
    (res : ℕ → ℝ)
    (h0 : ¬(advanceLo tw Nt (sw i - nsig * dwOf sw R vs i) ilo = 0))
    (hdeg : ¬(advanceHi tw Nt (sw i + nsig * dwOf sw R vs i) ihi
      ≤ advanceLo tw Nt (sw i - nsig * dwOf sw R vs i) ilo - 1))
    (hbrk : ¬(advanceLo tw Nt (sw i - nsig * dwOf sw R vs i) ilo - 1 = Nt - 1)) :
    resampleGo sw R tw tf vs nsig Nt (fuel + 1) i ilo ihi res
      = resampleGo sw R tw tf vs nsig Nt fuel (i + 1)
          (advanceLo tw Nt (sw i - nsig * dwOf sw R vs i) ilo - 1)
          (advanceHi tw Nt (sw i + nsig * dwOf sw R vs i) ihi)
          (Function.update res i
            (trapzSum
              (fun k => tf k * gaussWeight tw (sw i) (dwOf sw R vs i) k) tw
              (advanceLo tw Nt (sw i - nsig * dwOf sw R vs i) ilo - 1)
              (advanceHi tw Nt (sw i + nsig * dwOf sw R vs i) ihi))) := by
  simp only [resampleGo]
  rw [if_neg h0, if_neg hdeg, if_neg hbrk]

/-- C1 is a code bug: the output array is initialized as
`np.zeros_like(spec_wobs) * fill_value`, i.e. `0 * fill_value = 0`, so with
`fill_value = 1` a skipped observation pixel (here: the whole template lies
above the pixel, `ilo` stays 0) is returned as `0`, not as the fill value `1`
promised by the docstring and the claim. -/
theorem c1_skipped_pixel_returns_zero_not_fill :
    resample_template_numba (fun _ => 1) (fun _ => 1) (fun k => (k : ℝ) + 2)
        (fun _ => 5) 0 0 1 1 2 0 = 0 ∧ (0 : ℝ) ≠ 1 := by
  refine ⟨?_, by norm_num⟩
  unfold resample_template_numba
  have hadv : advanceLo (fun k => (k : ℝ) + 2) 2
      ((fun _ => (1 : ℝ)) 0 - 0 * dwOf (fun _ => 1) (fun _ => 1) 0 0) 0 = 0 := by
    apply advanceLo_stop
    rintro ⟨hlt, -⟩
    norm_num at hlt
  show resampleGo (fun _ => 1) (fun _ => 1) (fun k => (k : ℝ) + 2) (fun _ => 5)
      0 0 2 (0 + 1) 0 0 1 (fun _ => 0 * 1) 0 = 0
  rw [resampleGo_skip _ _ _ _ _ _ _ _ _ _ _ _ hadv]
  norm_num [resampleGo]

/-- C3 counterexample: with `templ_wobs = [0, 1]` entirely below the pixel
window (`spec_wobs = [10, 10]`, `nsig = 0`), the lower search saturates `ilo`
at the last template index `Nt - 1 = 1` already at pixel 0, yet the loop does
not terminate: pixel 1 is still processed and receives the computed value `0`
(trapezoid of the zero flux), not the fill value `1`. -/
theorem c3_saturation_counterexample :
    advanceLo (fun k => (k : ℝ)) 2
        ((10 : ℝ) - 0 * dwOf (fun _ => 10) (fun _ => 1) 0 0) 0 = 2 - 1 ∧
    resample_template_numba (fun _ => 10) (fun _ => 1) (fun k => (k : ℝ))
        (fun _ => 0) 0 0 1 2 2 1 = 0 ∧ (0 : ℝ) ≠ 1 := by
  have hlo : ∀ t : ℝ, (0 : ℝ) < t → advanceLo (fun k => (k : ℝ)) 2 t 0 = 1 := by
    intro t ht
    rw [advanceLo_step _ _ _ _ (by simpa using ht) (by norm_num)]
    exact advanceLo_stop _ _ _ _ (by rintro ⟨-, h⟩; omega)
  have hhi1 : ∀ t : ℝ, (1 : ℝ) < t → advanceHi (fun k => (k : ℝ)) 2 t 1 = 2 := by
    intro t ht
    rw [advanceHi_step _ _ _ _ (by simpa using ht) (by norm_num)]
    exact advanceHi_stop _ _ _ _ (by rintro ⟨-, h⟩; omega)
  have hhi2 : ∀ t : ℝ, advanceHi (fun k => (k : ℝ)) 2 t 2 = 2 := by
    intro t
    exact advanceHi_stop _ _ _ _ (by rintro ⟨-, h⟩; omega)
  have htrapz : ∀ (g : ℕ → ℝ) (lo hi : ℕ),
      trapzSum (fun k => (fun _ => (0 : ℝ)) k * g k) (fun k => (k : ℝ)) lo hi = 0 := by
    intro g lo hi
    unfold trapzSum
    simp
  refine ⟨by rw [hlo _ (by norm_num)], ?_, by norm_num⟩
  unfold resample_template_numba
  show resampleGo (fun _ => 10) (fun _ => 1) (fun k => (k : ℝ)) (fun _ => 0)
      0 0 2 (1 + 1) 0 0 1 (fun _ => 0 * 1) 1 = 0
  rw [resampleGo_trapz _ _ _ _ _ _ _ _ _ _ _ _
    (by rw [hlo _ (by norm_num)]; norm_num)
    (by rw [hlo _ (by norm_num), hhi1 _ (by norm_num)]; norm_num)
    (by rw [hlo _ (by norm_num)]; norm_num)]
  rw [hlo _ (by norm_num), hhi1 _ (by norm_num)]
  show resampleGo (fun _ => 10) (fun _ => 1) (fun k => (k : ℝ)) (fun _ => 0)
      0 0 2 (0 + 1) 1 0 2 _ 1 = 0
  rw [resampleGo_trapz _ _ _ _ _ _ _ _ _ _ _ _
    (by rw [hlo _ (by norm_num)]; norm_num)
    (by rw [hlo _ (by norm_num), hhi2]; norm_num)
    (by rw [hlo _ (by norm_num)]; norm_num)]
  rw [hlo _ (by norm_num), hhi2]
  simp only [resampleGo]
  rw [Function.update_same]
  exact htrapz _ _ _

lemma lsLAFterm_nonneg (z wi : ℝ) (r : LAFRow) (hw : 0 ≤ wi) (hl : 0 < r.lam)
    (ha1 : 0 ≤ r.a1) (ha2 : 0 ≤ r.a2) (ha3 : 0 ≤ r.a3) : 0 ≤ lsLAFterm z wi r := by
  unfold lsLAFterm
  have hx : 0 ≤ wi / r.lam := div_nonneg hw hl.le
  split_ifs <;>
    first
      | exact le_rfl
      | exact mul_nonneg (by assumption) (Real.rpow_nonneg hx _)

lemma lsDLAterm_nonneg (z wi : ℝ) (d : DLARow) (hw : 0 ≤ wi) (hl : 0 < d.lam)
    (hd1 : 0 ≤ d.d1) (hd2 : 0 ≤ d.d2) : 0 ≤ lsDLAterm z wi d := by
  unfold lsDLAterm
  have hx : 0 ≤ wi / d.lam := div_nonneg hw hl.le
  split_ifs <;>
    first
      | exact le_rfl
      | exact mul_nonneg (by assumption) (pow_nonneg hx _)

/-- Redward of the redshifted Lyman limit the accumulated optical depth is a
sum of nonnegative series terms, hence nonnegative. -/
lemma tauIGM_nonneg (z wi : ℝ) (hz : 0 < z) (hw : lamL * (1 + z) ≤ wi) :
    0 ≤ tauIGM z wi := by
  have hwpos : 0 ≤ wi := by
    have : (0 : ℝ) < lamL * (1 + z) := by
      unfold lamL
      nlinarith
    linarith
  unfold tauIGM
  split
  · exact le_rfl
  · have hlc : lymanContinuum z wi = 0 := by
      unfold lymanContinuum
      rw [if_neg (not_lt.mpr hw)]
    rw [hlc, add_zero, lymanSeriesTau_eq_sum]
    apply List.sum_nonneg
    intro x hx
    obtain ⟨⟨r, d⟩, hp, rfl⟩ := List.mem_map.mp hx
    obtain ⟨hrl, hdl⟩ := List.of_mem_zip hp
    obtain ⟨hl, ha1, -, ha2, ha3⟩ := LAFtable_bounds r hrl
    obtain ⟨hld, hd1, -, hd2⟩ := DLAtable_bounds d hdl
    exact add_nonneg
      (lsLAFterm_nonneg z wi r hwpos (by linarith) ha1 ha2 ha3)
      (lsDLAterm_nonneg z wi d hwpos (by linarith) hd1 hd2)

/-- C4 as amended: for `z > 0`, `scale_tau ≥ 0`, and wavelengths at or above
the redshifted Lyman limit `911.8·(1+z)`, the transmission lies in `(0, 1]`
and is monotonically non-increasing in `scale_tau`.  (Blueward of the limit
the Lyman-continuum terms can drive `tau` negative and the output above 1;
see the counterexample.) -/
theorem c4_transmission_range_amended (z s : ℝ) (wobs : ℕ → ℝ) (i : ℕ)
    (hz : 0 < z) (hs : 0 ≤ s) (hw : lamL * (1 + z) ≤ wobs i) :
    (0 < compute_igm z wobs s i ∧ compute_igm z wobs s i ≤ 1) ∧
    ∀ s', s ≤ s' → compute_igm z wobs s' i ≤ compute_igm z wobs s i := by
  have htau : 0 ≤ tauIGM z (wobs i) := tauIGM_nonneg z (wobs i) hz hw
  refine ⟨⟨Real.exp_pos _, ?_⟩, ?_⟩
  · show Real.exp (-s * tauIGM z (wobs i)) ≤ 1
    rw [show (1 : ℝ) = Real.exp 0 from Real.exp_zero.symm]
    exact Real.exp_le_exp.mpr (by nlinarith)
  · intro s' hss'
    show Real.exp (-s' * tauIGM z (wobs i)) ≤ Real.exp (-s * tauIGM z (wobs i))
    exact Real.exp_le_exp.mpr (by nlinarith)

/-- Witness for the amended C4 at a concrete input. -/
theorem c4_transmission_range_amended_witness :
    ((0 : ℝ) < 1 ∧ (0 : ℝ) ≤ 1 ∧ lamL * (1 + (1 : ℝ)) ≤ 2000) ∧
      (0 < compute_igm 1 (fun _ => 2000) 1 0 ∧ compute_igm 1 (fun _ => 2000) 1 0 ≤ 1) :=
  ⟨⟨by norm_num, by norm_num, by norm_num [lamL]⟩,
    (c4_transmission_range_amended 1 1 (fun _ => 2000) 0 (by norm_num) (by norm_num)
      (by norm_num [lamL])).1⟩

lemma rpow_lower_03 (a x : ℝ) (ha : 0 ≤ a) (hx : 0 ≤ x)
    (h : a ^ (10 : ℕ) ≤ x ^ (3 : ℕ)) : a ≤ x ^ (0.3 : ℝ) := by
  have h' := rpow_div_ten_lower a x 3 ha hx h
  rwa [show ((3 : ℕ) : ℝ) / 10 = (0.3 : ℝ) by norm_num] at h'

lemma rpow_lower_23 (a x : ℝ) (ha : 0 ≤ a) (hx : 0 ≤ x)
    (h : a ^ (10 : ℕ) ≤ x ^ (23 : ℕ)) : a ≤ x ^ (2.3 : ℝ) := by
  have h' := rpow_div_ten_lower a x 23 ha hx h
  rwa [show ((23 : ℕ) : ℝ) / 10 = (2.3 : ℝ) by norm_num] at h'

/-- At `z = 1`, `wi = 1` every Lyman-series row contributes only its two
lowest branches, bounded by the largest table coefficients. -/
lemma igm_row_bound_at_1_1 : ∀ p ∈ igmRows,
    lsLAFterm 1 1 p.1 + lsDLAterm 1 1 p.2
      ≤ 0.0169 * ((1 : ℝ) / 912) + 0.00017 * ((1 : ℝ) / 912) ^ 2 := by
  rintro ⟨r, d⟩ hp
  obtain ⟨hrl, hdl⟩ := List.of_mem_zip hp
  obtain ⟨hl, ha1, ha1u, -, -⟩ := LAFtable_bounds r hrl
  obtain ⟨hld, hd1, hd1u, -⟩ := DLAtable_bounds d hdl
  have hLAF : lsLAFterm 1 1 r ≤ 0.0169 * ((1 : ℝ) / 912) := by
    unfold lsLAFterm z1LAF
    rw [if_pos (by nlinarith : (1 : ℝ) < r.lam * (1 + 1)),
      if_pos (by nlinarith : (1 : ℝ) < r.lam * (1 + 1.2))]
    have h0 : (0 : ℝ) < 1 / r.lam := by positivity
    have hx : ((1 : ℝ) / r.lam) ^ (1.2 : ℝ) ≤ (1 : ℝ) / 912 := by
      calc ((1 : ℝ) / r.lam) ^ (1.2 : ℝ)
          ≤ ((1 : ℝ) / r.lam) ^ (1 : ℝ) :=
            Real.rpow_le_rpow_of_exponent_ge h0
              (by rw [div_le_one (by linarith)]; linarith) (by norm_num)
        _ = 1 / r.lam := Real.rpow_one _
        _ ≤ 1 / 912 := one_div_le_one_div_of_le (by norm_num) hl
    exact mul_le_mul ha1u hx (Real.rpow_nonneg h0.le _) (by norm_num)
  have hDLA : lsDLAterm 1 1 d ≤ 0.00017 * ((1 : ℝ) / 912) ^ 2 := by
    unfold lsDLAterm z1DLA
    rw [if_pos (by nlinarith : (1 : ℝ) < d.lam * (1 + 1)),
      if_pos (by nlinarith : (1 : ℝ) < d.lam * (1 + 2.0))]
    have h0 : (0 : ℝ) ≤ 1 / d.lam := by positivity
    have hx : ((1 : ℝ) / d.lam) ^ 2 ≤ ((1 : ℝ) / 912) ^ 2 := by
      apply pow_le_pow_left₀ h0
      exact one_div_le_one_div_of_le (by norm_num) hld
    exact mul_le_mul hd1u hx (pow_nonneg h0 _) (by norm_num)
  linarith

/-- C4 counterexample: at `z = 1 > 0`, `wobs = [1]`, `scale_tau = 1` the
Lyman-continuum DLA term `-0.07661·(1+z)^2.3·(wi/911.8)^(-0.3)` dominates and
drives the accumulated `tau` negative, so the returned transmission exceeds 1
and is not in `(0, 1]`. -/
theorem c4_transmission_range_counterexample :
    1 < compute_igm 1 (fun _ => 1) 1 0 := by
  have hseries : lymanSeriesTau 1 1 ≤ 0.00075 := by
    rw [lymanSeriesTau_eq_sum]
    calc (igmRows.map fun p => lsLAFterm 1 1 p.1 + lsDLAterm 1 1 p.2).sum
        ≤ (igmRows.map fun _ =>
            0.0169 * ((1 : ℝ) / 912) + 0.00017 * ((1 : ℝ) / 912) ^ 2).sum :=
          List.sum_le_sum igm_row_bound_at_1_1
      _ = igmRows.length •
            (0.0169 * ((1 : ℝ) / 912) + 0.00017 * ((1 : ℝ) / 912) ^ 2) := by
          rw [List.map_const', List.sum_replicate]
      _ ≤ 0.00075 := by
          rw [show igmRows.length = 39 by
              simp [igmRows, LAFtable, DLAtable], nsmul_eq_mul]
          norm_num
  have hinv : ((1 : ℝ) / 911.8) ^ ((-0.3 : ℝ)) = (911.8 : ℝ) ^ ((0.3 : ℝ)) := by
    rw [one_div, Real.inv_rpow (by norm_num), ← Real.rpow_neg (by norm_num), neg_neg]
  have h237 : (4.9 : ℝ) ≤ (1 + 1 : ℝ) ^ (2.3 : ℝ) :=
    rpow_lower_23 4.9 (1 + 1) (by norm_num) (by norm_num) (by norm_num)
  have h9118 : (7.7 : ℝ) ≤ (911.8 : ℝ) ^ (0.3 : ℝ) :=
    rpow_lower_03 7.7 911.8 (by norm_num) (by norm_num) (by norm_num)
  have hDLAbound : lcDLA 1 1 ≤ -2.04 := by
    unfold lcDLA z1DLA lamL
    rw [if_pos (by norm_num : (1 : ℝ) < 2.0), hinv]
    have h1 : (4.9 : ℝ) * 7.7 ≤ (1 + 1 : ℝ) ^ (2.3 : ℝ) * (911.8 : ℝ) ^ (0.3 : ℝ) :=
      mul_le_mul h237 h9118 (by norm_num) (Real.rpow_nonneg (by norm_num) _)
    have h2 : (0 : ℝ) ≤ 0.1347 * ((1 : ℝ) / 911.8) ^ 2 := by positivity
    nlinarith [h1, h2]
  have hLAFbound : lcLAF 1 1 ≤ 0.0004 := by
    unfold lcLAF z1LAF lamL
    rw [if_pos (by norm_num : (1 : ℝ) < 1.2)]
    have h1 : ((1 : ℝ) / 911.8) ^ (1.2 : ℝ) ≤ (1 : ℝ) / 911.8 := by
      calc ((1 : ℝ) / 911.8) ^ (1.2 : ℝ)
          ≤ ((1 : ℝ) / 911.8) ^ (1 : ℝ) :=
            Real.rpow_le_rpow_of_exponent_ge (by norm_num) (by norm_num) (by norm_num)
        _ = 1 / 911.8 := Real.rpow_one _
    have h2 : (0 : ℝ) ≤ (1 + 1 : ℝ) ^ ((-0.9 : ℝ)) * ((1 : ℝ) / 911.8) ^ (2.1 : ℝ) :=
      mul_nonneg (Real.rpow_nonneg (by norm_num) _) (Real.rpow_nonneg (by norm_num) _)
    nlinarith [h1, h2]
  have hLC : lymanContinuum 1 1 ≤ -2.03 := by
    unfold lymanContinuum
    rw [if_pos (by norm_num [lamL] : (1 : ℝ) < lamL * (1 + 1))]
    linarith
  have htau : tauIGM 1 1 < 0 := by
    unfold tauIGM
    rw [if_neg (by norm_num : ¬((1 : ℝ) > 1300.0 * (1 + 1)))]
    linarith
  show (1 : ℝ) < Real.exp (-1 * tauIGM 1 ((fun _ => (1 : ℝ)) 0))
  calc (1 : ℝ) = Real.exp 0 := Real.exp_zero.symm
    _ < Real.exp (-1 * tauIGM 1 ((fun _ => (1 : ℝ)) 0)) :=
        Real.exp_lt_exp.mpr (by simpa using by nlinarith [htau] : (0 : ℝ) < -1 * tauIGM 1 1)

/-- Witness for C5 at the first table row. -/
theorem c5_series_branch_structure_witness :
    (⟨2, 1215.670, 1.68976e-02, 2.35379e-03, 1.02611e-04⟩ : LAFRow) ∈ LAFtable ∧
      lsLAFterm 1 1000 ⟨2, 1215.670, 1.68976e-02, 2.35379e-03, 1.02611e-04⟩ =
        specLAFterm 1 1000 ⟨2, 1215.670, 1.68976e-02, 2.35379e-03, 1.02611e-04⟩ :=
  ⟨List.mem_cons_self _ _,
    c5_series_branch_structure.1 1 1000 _ (List.mem_cons_self _ _)⟩

